import Mathlib

/-!
Verification of the caching façade in `src/server.py` (ServicoPesquisa).

The embedding models:
  * JSON filter values (`JVal`): Python dicts are insertion-ordered
    association lists, JSON numbers are modelled as integers;
  * `normalize_filters` (strings trimmed and lower-cased, `None` entries
    dropped, recursively);
  * `cache_key_from_filters` (canonical `json.dumps` with
    `sort_keys=True, separators=(",", ":")`, then SHA-256 over the UTF-8
    bytes, rendered as lowercase hex);
  * the read-through coordinator `get_cached_or_refresh` as a pure step
    function over an explicit store; timestamps are UTC wall-clock
    milliseconds modelled as `Int`, the upstream HTTP adapter is a
    function from requests to `Except`, and the list of issued upstream
    requests is returned so call counts are observable;
  * the `/busca/avancada` endpoint's filter-set construction.
-/

/-- JSON-like filter values, a closed variant of the value types the spec
permits (string, number, boolean, nested mapping, ordered sequence, null).
Python numbers are modelled as integers. Mappings are insertion-ordered
association lists, following Python dict semantics. -/
inductive JVal where
  | null : JVal
  | str : String → JVal
  | int : Int → JVal
  | bool : Bool → JVal
  | arr : List JVal → JVal
  | obj : List (String × JVal) → JVal

mutual
/-- Structural Boolean equality on `JVal` (the `deriving` handler does not
support nested inductives, so decidable equality is built by hand). -/
def beqJ : JVal → JVal → Bool
  | .null, .null => true
  | .str a, .str b => a == b
  | .int a, .int b => a == b
  | .bool a, .bool b => a == b
  | .arr a, .arr b => beqL a b
  | .obj a, .obj b => beqO a b
  | _, _ => false

def beqL : List JVal → List JVal → Bool
  | [], [] => true
  | x :: xs, y :: ys => beqJ x y && beqL xs ys
  | _, _ => false

def beqO : List (String × JVal) → List (String × JVal) → Bool
  | [], [] => true
  | (k, v) :: xs, (k2, w) :: ys => k == k2 && beqJ v w && beqO xs ys
  | _, _ => false
end

mutual
theorem beqJ_eq (a b : JVal) (h : beqJ a b = true) : a = b := by
  cases a <;> cases b <;>
    first
      | rfl
      | (simp [beqJ] at h; done)
      | skip
  case str.str a b => simp only [beqJ, beq_iff_eq] at h; rw [h]
  case int.int a b => simp only [beqJ, beq_iff_eq] at h; rw [h]
  case bool.bool a b => simp only [beqJ, beq_iff_eq] at h; rw [h]
  case arr.arr a b => rw [beqL_eq a b (by simpa only [beqJ] using h)]
  case obj.obj a b => rw [beqO_eq a b (by simpa only [beqJ] using h)]

theorem beqL_eq : (xs ys : List JVal) → beqL xs ys = true → xs = ys
  | [], [], _ => rfl
  | [], _ :: _, h => by simp [beqL] at h
  | _ :: _, [], h => by simp [beqL] at h
  | x :: xs, y :: ys, h => by
    simp only [beqL, Bool.and_eq_true] at h
    rw [beqJ_eq x y h.1, beqL_eq xs ys h.2]

theorem beqO_eq : (xs ys : List (String × JVal)) → beqO xs ys = true → xs = ys
  | [], [], _ => rfl
  | [], _ :: _, h => by simp [beqO] at h
  | _ :: _, [], h => by simp [beqO] at h
  | (k, v) :: xs, (k2, w) :: ys, h => by
    simp only [beqO, Bool.and_eq_true, beq_iff_eq] at h
    rw [h.1.1, beqJ_eq v w h.1.2, beqO_eq xs ys h.2]
end

mutual
theorem beqJ_refl : (a : JVal) → beqJ a a = true
  | .null => rfl
  | .str a => by simp [beqJ]
  | .int a => by simp [beqJ]
  | .bool a => by simp [beqJ]
  | .arr a => by simpa only [beqJ] using beqL_refl a
  | .obj a => by simpa only [beqJ] using beqO_refl a

theorem beqL_refl : (xs : List JVal) → beqL xs xs = true
  | [] => rfl
  | x :: xs => by
    simp only [beqL, Bool.and_eq_true]
    exact ⟨beqJ_refl x, beqL_refl xs⟩

theorem beqO_refl : (xs : List (String × JVal)) → beqO xs xs = true
  | [] => rfl
  | (k, v) :: xs => by
    simp only [beqO, Bool.and_eq_true, beq_self_eq_true]
    exact ⟨⟨trivial, beqJ_refl v⟩, beqO_refl xs⟩
end

instance : DecidableEq JVal := fun a b =>
  if h : beqJ a b = true then isTrue (beqJ_eq a b h)
  else isFalse (fun e => h (e ▸ beqJ_refl a))

/-- Test for the `None` value, as in Python's `v is not None`. -/
def JVal.isNull : JVal → Bool
  | .null => true
  | _ => false

/-- Python whitespace characters for `str.strip()` (ASCII range: space,
tab, newline, carriage return, vertical tab, form feed). -/
def isPySpace (c : Char) : Bool :=
  (c.toNat == 32) || (c.toNat == 9) || (c.toNat == 10) || (c.toNat == 13) ||
    (c.toNat == 11) || (c.toNat == 12)

/-- Strip leading and trailing whitespace from a character list. -/
def stripChars (l : List Char) : List Char :=
  ((l.dropWhile isPySpace).reverse.dropWhile isPySpace).reverse

/-- Python `str.strip()` (ASCII whitespace). -/
def pyStrip (s : String) : String :=
  String.mk (stripChars s.data)

/-- Python `str.lower()` on one character (ASCII range, as in the
filter strings this service handles). -/
def pyLowerChar (c : Char) : Char :=
  if 65 ≤ c.toNat ∧ c.toNat ≤ 90 then Char.ofNat (c.toNat + 32) else c

/-- Python `str.lower()` (ASCII range). -/
def pyLower (s : String) : String :=
  String.mk (s.data.map pyLowerChar)

mutual
/-- The inner `norm` of `normalize_filters` in `src/server.py` (named
`normJ` here because Mathlib already exports `norm`):
strings are stripped and lower-cased, dict and list values are
normalized recursively with `None` entries dropped, everything else
passes through unchanged. -/
def normJ : JVal → JVal
  | .str s => .str (pyLower (pyStrip s))
  | .arr xs => .arr (normArr xs)
  | .obj kvs => .obj (normObj kvs)
  | v => v

/-- List case of the inner norm: `[norm(x) for x in v if x is not None]`. -/
def normArr : List JVal → List JVal
  | [] => []
  | x :: xs => if x.isNull then normArr xs else normJ x :: normArr xs

/-- Dict case of the inner norm:
`{k: norm(v[k]) for k in v if v[k] is not None}`. -/
def normObj : List (String × JVal) → List (String × JVal)
  | [] => []
  | (k, v) :: kvs => if v.isNull then normObj kvs else (k, normJ v) :: normObj kvs
end

/-- `normalize_filters` from `src/server.py`: the top level drops `None`
entries (`{k: v for k, v in filters.items() if v is not None}`) and then
applies `normJ` to the resulting dict; `normJ` of a dict is
`JVal.obj` of `normObj` of its entries, so the returned dict's entries are
`normObj` of the filtered entries. -/
def normalize_filters (filters : List (String × JVal)) : List (String × JVal) :=
  normObj (filters.filter (fun kv => !kv.2.isNull))

/-- Entries kept by the top-level filter of `normalize_filters` are
exactly re-filtered by `normObj`, so the pre-filter is absorbed. -/
theorem normObj_filter (kvs : List (String × JVal)) :
    normObj (kvs.filter (fun kv => !kv.2.isNull)) = normObj kvs := by
  induction kvs with
  | nil => rfl
  | cons kv rest ih =>
    obtain ⟨k, v⟩ := kv
    by_cases h : v.isNull
    · simp [List.filter, h, normObj, ih]
    · simp [List.filter, h, normObj, ih]

theorem normalize_filters_eq_normObj (filters : List (String × JVal)) :
    normalize_filters filters = normObj filters :=
  normObj_filter filters

/-- Lowercase hexadecimal digit. -/
def hexChar (n : Nat) : Char :=
  if n < 10 then Char.ofNat (48 + n) else Char.ofNat (87 + n)

/-- Four lowercase hex digits, as in Python's `'\\u%04x'` escapes. -/
def hex4 (n : Nat) : String :=
  String.mk [hexChar (n / 4096 % 16), hexChar (n / 256 % 16),
    hexChar (n / 16 % 16), hexChar (n % 16)]

/-- JSON string escaping as performed by `json.dumps` with the default
`ensure_ascii=True`: quote and backslash are escaped, the control
characters with short escapes use them, every other character outside
the printable ASCII range `0x20..0x7e` becomes a `\uXXXX` escape
(a surrogate pair beyond the BMP). -/
def escapeChar (c : Char) : String :=
  if c = Char.ofNat 34 then String.mk [Char.ofNat 92, Char.ofNat 34]
  else if c = Char.ofNat 92 then String.mk [Char.ofNat 92, Char.ofNat 92]
  else if c = Char.ofNat 10 then "\\n"
  else if c = Char.ofNat 13 then "\\r"
  else if c = Char.ofNat 9 then "\\t"
  else if c = Char.ofNat 8 then "\\b"
  else if c = Char.ofNat 12 then "\\f"
  else if 32 ≤ c.toNat ∧ c.toNat ≤ 126 then String.mk [c]
  else if c.toNat < 65536 then "\\u" ++ hex4 c.toNat
  else
    "\\u" ++ hex4 (55296 + (c.toNat - 65536) / 1024) ++
      "\\u" ++ hex4 (56320 + (c.toNat - 65536) % 1024)

/-- A JSON string literal: quoted, with `escapeChar` applied to each
character. -/
def encodeString (s : String) : String :=
  String.mk [Char.ofNat 34] ++ String.join (s.data.map escapeChar) ++
    String.mk [Char.ofNat 34]

/-- Comma join with no insignificant whitespace
(`separators=(",", ":")`). -/
def joinComma : List String → String
  | [] => ""
  | [s] => s
  | s :: rest => s ++ "," ++ joinComma rest

/-- Ordering of serialized object entries by raw key, the order
`sort_keys=True` emits (dict keys are unique, so comparing only the key
is Python's `sorted(d.items())`). -/
def entryLe (a b : String × String) : Prop := a.1 ≤ b.1

instance : DecidableRel entryLe := fun a b => by
  unfold entryLe; infer_instance

/-- Sort serialized object entries by key (a stable sort, like Python's
`sorted`). -/
def sortEntries (l : List (String × String)) : List (String × String) :=
  List.insertionSort entryLe l

/-- Render sorted entries as `"key":value` fragments. -/
def entryStrings (l : List (String × String)) : List String :=
  l.map (fun kv => encodeString kv.1 ++ ":" ++ kv.2)

mutual
/-- `json.dumps(v, sort_keys=True, separators=(",", ":"))`: object keys
are emitted in ascending order at every nesting level, no whitespace,
integers in decimal, strings escaped as by `ensure_ascii=True`. Values
are serialized and then the entries of each object are sorted by key;
Python sorts first and then serializes, which produces the same text. -/
def dumps : JVal → String
  | .null => "null"
  | .bool b => if b then "true" else "false"
  | .int n => toString n
  | .str s => encodeString s
  | .arr xs => "[" ++ joinComma (dumpList xs) ++ "]"
  | .obj kvs =>
    String.mk [Char.ofNat 123] ++
      joinComma (entryStrings (sortEntries (dumpEntries kvs))) ++
      String.mk [Char.ofNat 125]

def dumpList : List JVal → List String
  | [] => []
  | x :: xs => dumps x :: dumpList xs

def dumpEntries : List (String × JVal) → List (String × String)
  | [] => []
  | (k, v) :: kvs => (k, dumps v) :: dumpEntries kvs
end

/-- UTF-8 encoding of one code point (`str.encode("utf-8")`). -/
def utf8Char (c : Char) : List Nat :=
  let n := c.toNat
  if n < 128 then [n]
  else if n < 2048 then [192 + n / 64, 128 + n % 64]
  else if n < 65536 then [224 + n / 4096, 128 + n / 64 % 64, 128 + n % 64]
  else [240 + n / 262144, 128 + n / 4096 % 64, 128 + n / 64 % 64, 128 + n % 64]

/-- UTF-8 encoding of a string as a byte list. -/
def utf8Encode (s : String) : List Nat :=
  s.data.foldr (fun c acc => utf8Char c ++ acc) []

/-- Truncation to a 32-bit word. -/
def w32 (n : Nat) : Nat := n % 4294967296

/-- 32-bit right rotation. -/
def rotr (k x : Nat) : Nat := w32 ((x >>> k) ||| (x <<< (32 - k)))

/-- SHA-256 Σ0. -/
def bSig0 (x : Nat) : Nat := rotr 2 x ^^^ rotr 13 x ^^^ rotr 22 x

/-- SHA-256 Σ1. -/
def bSig1 (x : Nat) : Nat := rotr 6 x ^^^ rotr 11 x ^^^ rotr 25 x

/-- SHA-256 σ0. -/
def sSig0 (x : Nat) : Nat := rotr 7 x ^^^ rotr 18 x ^^^ (x >>> 3)

/-- SHA-256 σ1. -/
def sSig1 (x : Nat) : Nat := rotr 17 x ^^^ rotr 19 x ^^^ (x >>> 10)

/-- SHA-256 choice function (complement within 32 bits). -/
def chF (x y z : Nat) : Nat := (x &&& y) ^^^ ((x ^^^ 4294967295) &&& z)

/-- SHA-256 majority function. -/
def majF (x y z : Nat) : Nat := (x &&& y) ^^^ (x &&& z) ^^^ (y &&& z)

/-- The 64 SHA-256 round constants (decimal). -/
def sha256K : List Nat :=
  [1116352408, 1899447441, 3049323471, 3921009573, 961987163,
   1508970993, 2453635748, 2870763221, 3624381080, 310598401,
   607225278, 1426881987, 1925078388, 2162078206, 2614888103,
   3248222580, 3835390401, 4022224774, 264347078, 604807628,
   770255983, 1249150122, 1555081692, 1996064986, 2554220882,
   2821834349, 2952996808, 3210313671, 3336571891, 3584528711,
   113926993, 338241895, 666307205, 773529912, 1294757372,
   1396182291, 1695183700, 1986661051, 2177026350, 2456956037,
   2730485921, 2820302411, 3259730800, 3345764771, 3516065817,
   3600352804, 4094571909, 275423344, 430227734, 506948616,
   659060556, 883997877, 958139571, 1322822218, 1537002063,
   1747873779, 1955562222, 2024104815, 2227730452, 2361852424,
   2428436474, 2756734187, 3204031479, 3329325298]

/-- The initial SHA-256 hash state (decimal). -/
def sha256H0 : List Nat :=
  [1779033703, 3144134277, 1013904242, 2773480762, 1359893119,
   2600822924, 528734635, 1541459225]

/-- Big-endian byte rendering of a number on `count` bytes. -/
def beBytes : Nat → Nat → List Nat
  | 0, _ => []
  | c + 1, n => beBytes c (n / 256) ++ [n % 256]

/-- SHA-256 message padding: append `0x80`, zero bytes up to 56 mod 64,
then the bit length on eight big-endian bytes. -/
def padMessage (msg : List Nat) : List Nat :=
  let L := msg.length
  msg ++ [128] ++ List.replicate ((119 - L % 64) % 64) 0 ++ beBytes 8 (8 * L)

/-- Group bytes into big-endian 32-bit words. -/
def toWords : List Nat → List Nat
  | b0 :: b1 :: b2 :: b3 :: rest =>
    (((b0 * 256 + b1) * 256 + b2) * 256 + b3) :: toWords rest
  | _ => []

/-- Split a word list into 16-word blocks; the fuel argument (at least
the list length, which shrinks by at least one per chunk) keeps the
recursion structural so the kernel can evaluate it. -/
def toBlocksAux : Nat → List Nat → List (List Nat)
  | _, [] => []
  | 0, _ :: _ => []
  | fuel + 1, w :: rest => ((w :: rest).take 16) :: toBlocksAux fuel ((w :: rest).drop 16)

/-- Split a word list into 16-word blocks. -/
def toBlocks (ws : List Nat) : List (List Nat) :=
  toBlocksAux ws.length ws

/-- Append the next word of the SHA-256 message schedule. -/
def scheduleStep (ws : List Nat) : List Nat :=
  let n := ws.length
  ws ++ [w32 (sSig1 (ws.getD (n - 2) 0) + ws.getD (n - 7) 0 +
    sSig0 (ws.getD (n - 15) 0) + ws.getD (n - 16) 0)]

/-- One SHA-256 round: state is the word list `[a,b,c,d,e,f,g,h]`. -/
def roundStep (st : List Nat) (kw : Nat × Nat) : List Nat :=
  let a := st.getD 0 0
  let b := st.getD 1 0
  let c := st.getD 2 0
  let d := st.getD 3 0
  let e := st.getD 4 0
  let f := st.getD 5 0
  let g := st.getD 6 0
  let h8 := st.getD 7 0
  let t1 := w32 (h8 + bSig1 e + chF e f g + kw.1 + kw.2)
  let t2 := w32 (bSig0 a + majF a b c)
  [w32 (t1 + t2), a, b, c, w32 (d + t1), e, f, g]

/-- Compress one 16-word block into the hash state. -/
def compressBlock (h : List Nat) (block : List Nat) : List Nat :=
  let ws := scheduleStep^[48] block
  let st := (sha256K.zip ws).foldl roundStep h
  List.zipWith (fun x y => w32 (x + y)) h st

/-- SHA-256 of a byte list, as 32 digest bytes. -/
def sha256 (msg : List Nat) : List Nat :=
  let final := (toBlocks (toWords (padMessage msg))).foldl compressBlock sha256H0
  final.foldr (fun wd acc => beBytes 4 wd ++ acc) []

/-- Two lowercase hex digits of a byte. -/
def byteHex (b : Nat) : String :=
  String.mk [hexChar (b / 16), hexChar (b % 16)]

/-- Lowercase hex digest, as `hashlib.sha256(...).hexdigest()`. -/
def hexdigest (bytes : List Nat) : String :=
  String.join (bytes.map byteHex)

/-- `hashlib.sha256(text.encode("utf-8")).hexdigest()`. -/
def sha256hex (text : String) : String :=
  hexdigest (sha256 (utf8Encode text))

/-- `cache_key_from_filters` from `src/server.py`: normalize, dump
canonically, hash. -/
def cache_key_from_filters (filters : List (String × JVal)) : String :=
  sha256hex (dumps (.obj (normalize_filters filters)))

/-- A cache document as written by `get_cached_or_refresh`: every write
sets exactly the fields `key`, `filters`, `payload`, `updated_at`, so
documents in this service's collection have exactly these fields and the
`$set`-based upsert replaces a prior document completely. Timestamps are
UTC wall-clock milliseconds modelled as `Int`. -/
structure StoredDoc where
  key : String
  filters : JVal
  payload : JVal
  updated_at : Int
deriving DecidableEq

/-- An upstream HTTP request: `httpx.get(url, params=...)` or
`httpx.post(url, json=...)`. -/
structure UpstreamReq where
  method : String
  path : String
  params : Option (List (String × JVal))
  jsonBody : Option (List (String × JVal))
deriving DecidableEq

/-- Result of one `get_cached_or_refresh` call: the returned payload or
the raised `HTTPException` (status code and detail), the store after the
call, and the upstream requests issued during the call. -/
structure ResolveOutcome where
  result : Except (Nat × String) JVal
  store : List StoredDoc
  requests : List UpstreamReq

/-- `cache.find_one({"key": key})`. -/
def findByKey (store : List StoredDoc) (key : String) : Option StoredDoc :=
  store.find? (fun d => d.key == key)

/-- `cache.find_one_and_update({"key": key}, {"$set": {...}}, upsert=True)`:
replace the document with the given key, or append it when absent. The
`$set` lists every field of the document, so this is a full replacement. -/
def upsertByKey (store : List StoredDoc) (key : String) (doc : StoredDoc) :
    List StoredDoc :=
  if store.any (fun d => d.key == key) then
    store.map (fun d => if d.key = key then doc else d)
  else store ++ [doc]

/-- Python's `body or filters`: `None` and the empty dict are both falsy,
so a missing or empty body falls back to `filters`. -/
def pyOrBody (body : Option (List (String × JVal)))
    (filters : List (String × JVal)) : List (String × JVal) :=
  match body with
  | none => filters
  | some b => if b.isEmpty then filters else b

/-- The upstream request built by the miss/stale branch of
`get_cached_or_refresh`: GET sends `filters` as query parameters, any
other method POSTs `body or filters` as the JSON body. -/
def buildUpstreamRequest (filters : List (String × JVal)) (dotnet_path : String)
    (dotnet_method : String) (body : Option (List (String × JVal))) : UpstreamReq :=
  if dotnet_method == "GET" then
    ⟨"GET", dotnet_path, some filters, none⟩
  else
    ⟨dotnet_method, dotnet_path, none, some (pyOrBody body filters)⟩

/-- The miss/stale branch of `get_cached_or_refresh`: call upstream; on
`httpx.HTTPError` raise a 502 `HTTPException` and leave the store
untouched; on success upsert `{key, filters: normalize_filters(filters),
payload, updated_at: now}` and return the payload. -/
def refreshFromUpstream (upstream : UpstreamReq → Except String JVal)
    (store : List StoredDoc) (filters : List (String × JVal))
    (dotnet_path dotnet_method : String) (body : Option (List (String × JVal)))
    (now : Int) (key : String) : ResolveOutcome :=
  let req := buildUpstreamRequest filters dotnet_path dotnet_method body
  match upstream req with
  | .error e =>
    ⟨.error (502, "Erro chamando serviço .NET: " ++ e), store, [req]⟩
  | .ok payload =>
    ⟨.ok payload,
      upsertByKey store key ⟨key, .obj (normalize_filters filters), payload, now⟩,
      [req]⟩

/-- `get_cached_or_refresh` from `src/server.py`: derive the key, look the
document up; a document within TTL is returned as-is (cache hit); on miss
or expiry call the upstream service, persist and return its payload.
`now` is the UTC time captured at request start (`utcnow()`), `ttl` the
configured TTL, both in milliseconds. The upstream adapter is passed as
a function; the outcome records every request issued through it. -/
def get_cached_or_refresh (upstream : UpstreamReq → Except String JVal)
    (store : List StoredDoc) (filters : List (String × JVal))
    (dotnet_path : String) (dotnet_method : String)
    (body : Option (List (String × JVal))) (now ttl : Int) : ResolveOutcome :=
  let key := cache_key_from_filters filters
  match findByKey store key with
  | some doc =>
    if now - doc.updated_at ≤ ttl then ⟨.ok doc.payload, store, []⟩
    else refreshFromUpstream upstream store filters dotnet_path dotnet_method body now key
  | none => refreshFromUpstream upstream store filters dotnet_path dotnet_method body now key

/-- No document for `key` is a fresh hit in `store` at time `now`:
the lookup either misses or returns an expired document. Under this
condition `get_cached_or_refresh` reaches its refresh branch. -/
def noFreshHit (store : List StoredDoc) (key : String) (now ttl : Int) : Prop :=
  ∀ doc, findByKey store key = some doc → ¬ (now - doc.updated_at ≤ ttl)

/-- The request body of `POST /busca/avancada`, `AdvancedSearchRequest`
in `src/server.py`: four named optional fields plus free extra fields
(numeric fields modelled as integers). -/
structure AdvancedSearchRequest where
  servico : Option String
  regiao : Option String
  faixaPrecoMax : Option Int
  avaliacoesMinimas : Option Int
  extra : List (String × JVal)

/-- An absent optional string field is `None`. -/
def optStr : Option String → JVal
  | none => .null
  | some s => .str s

/-- An absent optional numeric field is `None`. -/
def optInt : Option Int → JVal
  | none => .null
  | some n => .int n

/-- Python dict insertion: `{**d, k: v}` updates the value in place when
the key exists and appends the pair otherwise. -/
def dictInsert (d : List (String × JVal)) (k : String) (v : JVal) :
    List (String × JVal) :=
  if d.any (fun kv => kv.1 == k) then
    d.map (fun kv => if kv.1 = k then (k, v) else kv)
  else d ++ [(k, v)]

/-- Value of a key in a Python dict. -/
def dictLookup (d : List (String × JVal)) (k : String) : Option JVal :=
  (d.find? (fun kv => kv.1 == k)).map Prod.snd

/-- The filter dict built by `busca_avancada`:
`{"servico": ..., "regiao": ..., "faixaPrecoMax": ..., "avaliacoesMinimas": ..., **req.extra}`.
The spread comes last, so keys from `extra` override the named fields. -/
def advancedFilters (req : AdvancedSearchRequest) : List (String × JVal) :=
  req.extra.foldl (fun d kv => dictInsert d kv.1 kv.2)
    [("servico", optStr req.servico), ("regiao", optStr req.regiao),
     ("faixaPrecoMax", optInt req.faixaPrecoMax),
     ("avaliacoesMinimas", optInt req.avaliacoesMinimas)]

/-- The `POST /busca/avancada` endpoint: resolves the merged filter set
against `/catalogo/busca/avancada` via POST, passing the same dict as
the cache-key input and as the request body. -/
def busca_avancada (upstream : UpstreamReq → Except String JVal)
    (store : List StoredDoc) (now ttl : Int)
    (req : AdvancedSearchRequest) : ResolveOutcome :=
  let filters := advancedFilters req
  get_cached_or_refresh upstream store filters "/catalogo/busca/avancada" "POST"
    (some filters) now ttl

/-- Replacing the matching documents makes the lookup return the new
document, provided some document matched. -/
theorem find?_map_replace (key : String) (doc : StoredDoc) (hdoc : doc.key = key)
    (store : List StoredDoc) (h : store.any (fun d => d.key == key) = true) :
    List.find? (fun d => d.key == key)
      (store.map (fun d => if d.key = key then doc else d)) = some doc := by
  induction store with
  | nil => simp at h
  | cons d rest ih =>
    by_cases hd : d.key = key
    · simp [List.find?_cons, hd, hdoc]
    · simp only [List.any_cons, beq_iff_eq, decide_eq_true_eq] at h
      simp only [List.map_cons, List.find?_cons, if_neg hd]
      have hdb : (d.key == key) = false := by simp [hd]
      rw [hdb]
      simp only [hdb, Bool.false_or] at h
      exact ih (by simpa using h)

/-- If no document matches, the lookup misses. -/
theorem find?_none_of_not_any (key : String) (store : List StoredDoc)
    (h : store.any (fun d => d.key == key) = false) :
    List.find? (fun d => d.key == key) store = none := by
  induction store with
  | nil => rfl
  | cons d rest ih =>
    simp only [List.any_cons, Bool.or_eq_false_iff] at h
    simp only [List.find?_cons, h.1]
    exact ih h.2

/-- After an upsert, looking the key up returns exactly the new document. -/
theorem findByKey_upsert_same (store : List StoredDoc) (key : String)
    (doc : StoredDoc) (hdoc : doc.key = key) :
    findByKey (upsertByKey store key doc) key = some doc := by
  unfold upsertByKey findByKey
  cases hany : store.any (fun d => d.key == key) with
  | true =>
    simp only [hany, if_true]
    exact find?_map_replace key doc hdoc store hany
  | false =>
    simp only [hany, Bool.false_eq_true, if_false]
    rw [List.find?_append, find?_none_of_not_any key store hany]
    simp [List.find?_cons, hdoc]

/-- An upsert for one key does not change what any other key finds. -/
theorem findByKey_upsert_other (store : List StoredDoc) (key : String)
    (doc : StoredDoc) (hdoc : doc.key = key) (k : String) (hk : k ≠ key) :
    findByKey (upsertByKey store key doc) k = findByKey store k := by
  unfold upsertByKey findByKey
  cases hany : store.any (fun d => d.key == key) with
  | true =>
    simp only [hany, if_true]
    clear hany
    induction store with
    | nil => rfl
    | cons d rest ih =>
      by_cases hd : d.key = key
      · have hdock : (doc.key == k) = false := by
          simp [hdoc]; exact fun e => hk e.symm
        have hdk : (d.key == k) = false := by
          simp [hd]; exact fun e => hk e.symm
        simp only [List.map_cons, List.find?_cons, if_pos hd, hdock, hdk]
        exact ih
      · simp only [List.map_cons, List.find?_cons, if_neg hd]
        cases hdk : (d.key == k) with
        | true => rfl
        | false => exact ih
  | false =>
    simp only [hany, Bool.false_eq_true, if_false]
    rw [List.find?_append]
    have hone : List.find? (fun d => d.key == k) [doc] = none := by
      have : (doc.key == k) = false := by
        simp [hdoc]; exact fun e => hk e.symm
      simp [List.find?_cons, this]
    rw [hone]
    cases List.find? (fun d => d.key == k) store <;> rfl

/-- When no fresh hit exists, `get_cached_or_refresh` reaches its
refresh branch. -/
theorem resolve_of_noFreshHit (upstream : UpstreamReq → Except String JVal)
    (store : List StoredDoc) (filters : List (String × JVal))
    (path method : String) (body : Option (List (String × JVal)))
    (now ttl : Int)
    (h : noFreshHit store (cache_key_from_filters filters) now ttl) :
    get_cached_or_refresh upstream store filters path method body now ttl =
      refreshFromUpstream upstream store filters path method body now
        (cache_key_from_filters filters) := by
  simp only [get_cached_or_refresh]
  cases hf : findByKey store (cache_key_from_filters filters) with
  | none => rfl
  | some doc => exact if_neg (h doc hf)

/-- A missing key is never a fresh hit. -/
theorem noFreshHit_of_none (store : List StoredDoc) (key : String) (now ttl : Int)
    (h : findByKey store key = none) : noFreshHit store key now ttl :=
  fun d hd => by rw [h] at hd; cases hd

/-- C2: in `get_cached_or_refresh`, a stored entry for the derived key
whose age `now - updated_at` is at most the TTL is returned as-is, with
no upstream request and no store write; an entry with
`updated_at = now - TTL - 1` (one millisecond past expiry) triggers a
refresh (exactly one upstream request), while
`updated_at = now - TTL + 1` is a cache hit. `now` is the UTC wall-clock
time captured at request start. -/
theorem C2_ttl_boundary (upstream : UpstreamReq → Except String JVal)
    (store : List StoredDoc) (filters : List (String × JVal))
    (path method : String) (body : Option (List (String × JVal)))
    (now ttl : Int) (doc : StoredDoc)
    (hfind : findByKey store (cache_key_from_filters filters) = some doc) :
    (now - doc.updated_at ≤ ttl →
      get_cached_or_refresh upstream store filters path method body now ttl =
        ⟨Except.ok doc.payload, store, []⟩) ∧
    (doc.updated_at = now - ttl - 1 →
      (get_cached_or_refresh upstream store filters path method body now ttl).requests.length = 1) ∧
    (doc.updated_at = now - ttl + 1 →
      get_cached_or_refresh upstream store filters path method body now ttl =
        ⟨Except.ok doc.payload, store, []⟩) := by
  have hhit : ∀ hfr : now - doc.updated_at ≤ ttl,
      get_cached_or_refresh upstream store filters path method body now ttl =
        ⟨Except.ok doc.payload, store, []⟩ := by
    intro hfr
    simp only [get_cached_or_refresh]
    rw [hfind]
    exact if_pos hfr
  refine ⟨hhit, ?_, fun hb => hhit (by omega)⟩
  intro hstale
  have hnf : noFreshHit store (cache_key_from_filters filters) now ttl := by
    intro d hd
    rw [hfind] at hd
    cases hd
    omega
  rw [resolve_of_noFreshHit upstream store filters path method body now ttl hnf]
  simp only [refreshFromUpstream]
  cases upstream (buildUpstreamRequest filters path method body) <;> rfl

/-- C2 witness: a store holding one entry for the key of the empty
filter set, one millisecond inside the TTL window at `now = 0`. -/
theorem C2_ttl_boundary_witness :
    (findByKey [⟨cache_key_from_filters [], JVal.obj [], JVal.str "p",
        (0 : Int) - 600000 + 1⟩] (cache_key_from_filters []) =
      some ⟨cache_key_from_filters [], JVal.obj [], JVal.str "p", (0 : Int) - 600000 + 1⟩) ∧
    ((0 : Int) - ((0 : Int) - 600000 + 1) ≤ 600000 →
      get_cached_or_refresh (fun _ => Except.ok (JVal.obj []))
        [⟨cache_key_from_filters [], JVal.obj [], JVal.str "p", (0 : Int) - 600000 + 1⟩]
        [] "/catalogo/busca" "GET" none 0 600000 =
        ⟨Except.ok (JVal.str "p"),
          [⟨cache_key_from_filters [], JVal.obj [], JVal.str "p", (0 : Int) - 600000 + 1⟩], []⟩) ∧
    ((0 : Int) - 600000 + 1 = (0 : Int) - 600000 - 1 →
      (get_cached_or_refresh (fun _ => Except.ok (JVal.obj []))
        [⟨cache_key_from_filters [], JVal.obj [], JVal.str "p", (0 : Int) - 600000 + 1⟩]
        [] "/catalogo/busca" "GET" none 0 600000).requests.length = 1) ∧
    ((0 : Int) - 600000 + 1 = (0 : Int) - 600000 + 1 →
      get_cached_or_refresh (fun _ => Except.ok (JVal.obj []))
        [⟨cache_key_from_filters [], JVal.obj [], JVal.str "p", (0 : Int) - 600000 + 1⟩]
        [] "/catalogo/busca" "GET" none 0 600000 =
        ⟨Except.ok (JVal.str "p"),
          [⟨cache_key_from_filters [], JVal.obj [], JVal.str "p", (0 : Int) - 600000 + 1⟩], []⟩) := by
  have hfind : findByKey [⟨cache_key_from_filters [], JVal.obj [], JVal.str "p",
      (0 : Int) - 600000 + 1⟩] (cache_key_from_filters []) =
      some ⟨cache_key_from_filters [], JVal.obj [], JVal.str "p", (0 : Int) - 600000 + 1⟩ := by
    simp [findByKey, List.find?_cons]
  exact ⟨hfind, C2_ttl_boundary (fun _ => Except.ok (JVal.obj [])) _ [] "/catalogo/busca"
    "GET" none 0 600000 _ hfind⟩

/-- C3: whenever the upstream call fails (the adapter returns an error:
network error, timeout or non-2xx all surface as `httpx.HTTPError`),
`get_cached_or_refresh` raises a distinct 502 `HTTPException`, returns no
cached payload, and leaves the store — including any stale entry for the
key — completely unchanged; no upsert is performed. -/
theorem C3_upstream_failure (upstream : UpstreamReq → Except String JVal)
    (store : List StoredDoc) (filters : List (String × JVal))
    (path method : String) (body : Option (List (String × JVal)))
    (now ttl : Int) (e : String)
    (hmiss : noFreshHit store (cache_key_from_filters filters) now ttl)
    (hup : upstream (buildUpstreamRequest filters path method body) = Except.error e) :
    (get_cached_or_refresh upstream store filters path method body now ttl).result =
      Except.error (502, "Erro chamando serviço .NET: " ++ e) ∧
    (get_cached_or_refresh upstream store filters path method body now ttl).store = store := by
  rw [resolve_of_noFreshHit upstream store filters path method body now ttl hmiss]
  simp [refreshFromUpstream, hup]

/-- C3 witness: empty store, an upstream that always fails. -/
theorem C3_upstream_failure_witness :
    (get_cached_or_refresh (fun _ => Except.error "timeout") [] [("termo", JVal.str "x")]
      "/catalogo/busca" "GET" none 0 600000).result =
      Except.error (502, "Erro chamando serviço .NET: " ++ "timeout") ∧
    (get_cached_or_refresh (fun _ => Except.error "timeout") [] [("termo", JVal.str "x")]
      "/catalogo/busca" "GET" none 0 600000).store = [] :=
  C3_upstream_failure (fun _ => Except.error "timeout") [] [("termo", JVal.str "x")]
    "/catalogo/busca" "GET" none 0 600000 "timeout"
    (noFreshHit_of_none _ _ _ _ rfl) rfl

/-- `findByKey_upsert_same` for the document shape the coordinator
writes, stated with the key as a variable. -/
theorem findByKey_upsert_mk (store : List StoredDoc) (key : String)
    (fl pl : JVal) (ts : Int) :
    findByKey (upsertByKey store key ⟨key, fl, pl, ts⟩) key = some ⟨key, fl, pl, ts⟩ :=
  findByKey_upsert_same store key ⟨key, fl, pl, ts⟩ rfl

/-- `findByKey_upsert_other` for the document shape the coordinator
writes. -/
theorem findByKey_upsert_mk_other (store : List StoredDoc) (key : String)
    (fl pl : JVal) (ts : Int) (k : String) (hk : k ≠ key) :
    findByKey (upsertByKey store key ⟨key, fl, pl, ts⟩) k = findByKey store k :=
  findByKey_upsert_other store key ⟨key, fl, pl, ts⟩ rfl k hk

/-- A fresh hit returns the stored payload with no request and no write. -/
theorem resolve_fresh_hit (upstream : UpstreamReq → Except String JVal)
    (store : List StoredDoc) (filters : List (String × JVal))
    (path method : String) (body : Option (List (String × JVal)))
    (now ttl : Int) (doc : StoredDoc)
    (hfind : findByKey store (cache_key_from_filters filters) = some doc)
    (hfresh : now - doc.updated_at ≤ ttl) :
    get_cached_or_refresh upstream store filters path method body now ttl =
      ⟨Except.ok doc.payload, store, []⟩ := by
  simp only [get_cached_or_refresh]
  rw [hfind]
  exact if_pos hfresh

/-- C4: with no stored entry for the derived key and a succeeding
upstream, two sequential `get_cached_or_refresh` calls with identical
filters, the second starting within the TTL window of the first, make
exactly one upstream call in total: the first call issues the single
request and upserts, the second returns the stored payload with no
request and no store change. -/
theorem C4_single_upstream_call (upstream : UpstreamReq → Except String JVal)
    (store : List StoredDoc) (filters : List (String × JVal))
    (path method : String) (body : Option (List (String × JVal)))
    (t1 t2 ttl : Int) (p : JVal)
    (hmiss : findByKey store (cache_key_from_filters filters) = none)
    (hup : upstream (buildUpstreamRequest filters path method body) = Except.ok p)
    (hwin : t2 - t1 ≤ ttl) :
    (get_cached_or_refresh upstream store filters path method body t1 ttl).requests.length = 1 ∧
    (get_cached_or_refresh upstream store filters path method body t1 ttl).result = Except.ok p ∧
    get_cached_or_refresh upstream
        (get_cached_or_refresh upstream store filters path method body t1 ttl).store
        filters path method body t2 ttl =
      ⟨Except.ok p,
        (get_cached_or_refresh upstream store filters path method body t1 ttl).store, []⟩ := by
  have h1 : get_cached_or_refresh upstream store filters path method body t1 ttl =
      ⟨Except.ok p,
        upsertByKey store (cache_key_from_filters filters)
          ⟨cache_key_from_filters filters, .obj (normalize_filters filters), p, t1⟩,
        [buildUpstreamRequest filters path method body]⟩ := by
    rw [resolve_of_noFreshHit upstream store filters path method body t1 ttl
      (noFreshHit_of_none _ _ _ _ hmiss)]
    simp [refreshFromUpstream, hup]
  refine ⟨by rw [h1]; rfl, by rw [h1], ?_⟩
  rw [h1]
  exact resolve_fresh_hit upstream _ filters path method body t2 ttl _
    (findByKey_upsert_mk store (cache_key_from_filters filters)
      (.obj (normalize_filters filters)) p t1)
    (by simpa using hwin)

/-- C4 witness: empty store, constant upstream, calls at 0 and TTL. -/
theorem C4_single_upstream_call_witness :
    (get_cached_or_refresh (fun _ => Except.ok (JVal.str "r")) [] [("termo", JVal.str "x")]
      "/catalogo/busca" "GET" none 0 600000).requests.length = 1 ∧
    (get_cached_or_refresh (fun _ => Except.ok (JVal.str "r")) [] [("termo", JVal.str "x")]
      "/catalogo/busca" "GET" none 0 600000).result = Except.ok (JVal.str "r") ∧
    get_cached_or_refresh (fun _ => Except.ok (JVal.str "r"))
        (get_cached_or_refresh (fun _ => Except.ok (JVal.str "r")) [] [("termo", JVal.str "x")]
          "/catalogo/busca" "GET" none 0 600000).store
        [("termo", JVal.str "x")] "/catalogo/busca" "GET" none 600000 600000 =
      ⟨Except.ok (JVal.str "r"),
        (get_cached_or_refresh (fun _ => Except.ok (JVal.str "r")) [] [("termo", JVal.str "x")]
          "/catalogo/busca" "GET" none 0 600000).store, []⟩ :=
  C4_single_upstream_call (fun _ => Except.ok (JVal.str "r")) [] [("termo", JVal.str "x")]
    "/catalogo/busca" "GET" none 0 600000 600000 (JVal.str "r") rfl rfl (by omega)

/-- C7: on upstream success from the refresh branch,
`get_cached_or_refresh` upserts exactly the document
`{key, filters: normalize_filters(filters), payload, updated_at: now}`
keyed by the derived key — creating it if absent and fully replacing any
prior document for that key (stored documents carry exactly these four
fields) — leaves every other key untouched, and returns the parsed
upstream payload. `now` is the UTC time captured at request start. -/
theorem C7_upsert_on_success (upstream : UpstreamReq → Except String JVal)
    (store : List StoredDoc) (filters : List (String × JVal))
    (path method : String) (body : Option (List (String × JVal)))
    (now ttl : Int) (p : JVal)
    (hmiss : noFreshHit store (cache_key_from_filters filters) now ttl)
    (hup : upstream (buildUpstreamRequest filters path method body) = Except.ok p) :
    (get_cached_or_refresh upstream store filters path method body now ttl).result =
      Except.ok p ∧
    (get_cached_or_refresh upstream store filters path method body now ttl).store =
      upsertByKey store (cache_key_from_filters filters)
        ⟨cache_key_from_filters filters, .obj (normalize_filters filters), p, now⟩ ∧
    findByKey (get_cached_or_refresh upstream store filters path method body now ttl).store
        (cache_key_from_filters filters) =
      some ⟨cache_key_from_filters filters, .obj (normalize_filters filters), p, now⟩ ∧
    (∀ k, k ≠ cache_key_from_filters filters →
      findByKey (get_cached_or_refresh upstream store filters path method body now ttl).store k =
        findByKey store k) := by
  rw [resolve_of_noFreshHit upstream store filters path method body now ttl hmiss]
  simp only [refreshFromUpstream, hup]
  refine ⟨by trivial, by trivial, ?_, ?_⟩
  · exact findByKey_upsert_mk store (cache_key_from_filters filters)
      (.obj (normalize_filters filters)) p now
  · intro k hk
    exact findByKey_upsert_mk_other store (cache_key_from_filters filters)
      (.obj (normalize_filters filters)) p now k hk

/-- C7 witness: empty store, constant upstream payload. -/
theorem C7_upsert_on_success_witness :
    (get_cached_or_refresh (fun _ => Except.ok (JVal.str "r")) [] [("a", JVal.str " B ")]
      "/p" "GET" none 7 600000).result = Except.ok (JVal.str "r") ∧
    (get_cached_or_refresh (fun _ => Except.ok (JVal.str "r")) [] [("a", JVal.str " B ")]
      "/p" "GET" none 7 600000).store =
      upsertByKey [] (cache_key_from_filters [("a", JVal.str " B ")])
        ⟨cache_key_from_filters [("a", JVal.str " B ")],
          .obj (normalize_filters [("a", JVal.str " B ")]), JVal.str "r", 7⟩ ∧
    findByKey (get_cached_or_refresh (fun _ => Except.ok (JVal.str "r")) [] [("a", JVal.str " B ")]
        "/p" "GET" none 7 600000).store (cache_key_from_filters [("a", JVal.str " B ")]) =
      some ⟨cache_key_from_filters [("a", JVal.str " B ")],
        .obj (normalize_filters [("a", JVal.str " B ")]), JVal.str "r", 7⟩ ∧
    (∀ k, k ≠ cache_key_from_filters [("a", JVal.str " B ")] →
      findByKey (get_cached_or_refresh (fun _ => Except.ok (JVal.str "r")) [] [("a", JVal.str " B ")]
        "/p" "GET" none 7 600000).store k = findByKey [] k) :=
  C7_upsert_on_success (fun _ => Except.ok (JVal.str "r")) [] [("a", JVal.str " B ")]
    "/p" "GET" none 7 600000 (JVal.str "r")
    (noFreshHit_of_none _ _ _ _ rfl) rfl

/-- C6 counterexample: the claim says a present body — including an
empty mapping — is sent as the POST body. But `json=body or filters`
treats the empty dict as falsy: with `body = some []` (present, empty)
and non-empty `filters`, the request carries `filters` as its JSON body,
not the provided empty mapping. -/
theorem C6_post_body_counterexample :
    (get_cached_or_refresh (fun _ => Except.ok (JVal.obj [])) []
        [("a", JVal.int 1)] "/catalogo/busca/avancada" "POST" (some []) 0 600000).requests =
      [⟨"POST", "/catalogo/busca/avancada", none, some [("a", JVal.int 1)]⟩] ∧
    some ([] : List (String × JVal)) ≠ (none : Option (List (String × JVal))) ∧
    ([("a", JVal.int 1)] : List (String × JVal)) ≠ [] := by
  refine ⟨rfl, ?_, ?_⟩ <;> simp

/-- C6 amended: in the POST branch (any non-`"GET"` method) reached on a
miss or stale entry, the upstream request's JSON body is Python's
`body or filters`: a present non-empty body is sent as the body, while
an absent body — or a present but empty mapping, which is falsy — falls
back to `filters`. -/
theorem C6_post_body_amended (upstream : UpstreamReq → Except String JVal)
    (store : List StoredDoc) (filters : List (String × JVal))
    (path method : String) (body : Option (List (String × JVal)))
    (now ttl : Int)
    (hm : (method == "GET") = false)
    (hmiss : noFreshHit store (cache_key_from_filters filters) now ttl) :
    (get_cached_or_refresh upstream store filters path method body now ttl).requests =
      [⟨method, path, none, some (pyOrBody body filters)⟩] ∧
    pyOrBody none filters = filters ∧
    pyOrBody (some []) filters = filters ∧
    (∀ b : List (String × JVal), b ≠ [] → pyOrBody (some b) filters = b) := by
  refine ⟨?_, rfl, rfl, ?_⟩
  · rw [resolve_of_noFreshHit upstream store filters path method body now ttl hmiss]
    simp only [refreshFromUpstream, buildUpstreamRequest, hm, Bool.false_eq_true, if_false]
    cases upstream ⟨method, path, none, some (pyOrBody body filters)⟩ <;> rfl
  · intro b hb
    simp [pyOrBody, hb]

/-- C6 amended witness: POST with a non-empty explicit body. -/
theorem C6_post_body_amended_witness :
    (get_cached_or_refresh (fun _ => Except.ok (JVal.obj [])) []
        [("a", JVal.int 1)] "/catalogo/busca/avancada" "POST"
        (some [("b", JVal.int 2)]) 0 600000).requests =
      [⟨"POST", "/catalogo/busca/avancada", none,
        some (pyOrBody (some [("b", JVal.int 2)]) [("a", JVal.int 1)])⟩] ∧
    pyOrBody none [("a", JVal.int 1)] = [("a", JVal.int 1)] ∧
    pyOrBody (some []) [("a", JVal.int 1)] = [("a", JVal.int 1)] ∧
    (∀ b : List (String × JVal), b ≠ [] →
      pyOrBody (some b) [("a", JVal.int 1)] = b) :=
  C6_post_body_amended (fun _ => Except.ok (JVal.obj [])) [] [("a", JVal.int 1)]
    "/catalogo/busca/avancada" "POST" (some [("b", JVal.int 2)]) 0 600000 rfl
    (noFreshHit_of_none _ _ _ _ rfl)

/-- Inserting a key makes its lookup return the inserted value. -/
theorem dictLookup_insert_same (d : List (String × JVal)) (k : String) (v : JVal) :
    dictLookup (dictInsert d k v) k = some v := by
  unfold dictInsert dictLookup
  cases hany : d.any (fun kv => kv.1 == k) with
  | true =>
    simp only [hany, if_true]
    induction d with
    | nil => simp at hany
    | cons kv rest ih =>
      by_cases hd : kv.1 = k
      · simp [List.find?_cons, hd]
      · have hdb : (kv.1 == k) = false := by simp [hd]
        simp only [List.any_cons, hdb, Bool.false_or] at hany
        simp only [List.map_cons, List.find?_cons, if_neg hd, hdb]
        exact ih hany
  | false =>
    simp only [hany, Bool.false_eq_true, if_false]
    have hnone : List.find? (fun kv => kv.1 == k) d = none := by
      induction d with
      | nil => rfl
      | cons kv rest ih =>
        simp only [List.any_cons, Bool.or_eq_false_iff] at hany
        simp only [List.find?_cons, hany.1]
        exact ih hany.2
    rw [List.find?_append, hnone]
    simp [List.find?_cons]

/-- Inserting one key does not change the lookup of another. -/
theorem dictLookup_insert_other (d : List (String × JVal)) (k1 : String) (v : JVal)
    (k : String) (hk : k ≠ k1) :
    dictLookup (dictInsert d k1 v) k = dictLookup d k := by
  unfold dictInsert dictLookup
  cases hany : d.any (fun kv => kv.1 == k1) with
  | true =>
    simp only [hany, if_true]
    clear hany
    induction d with
    | nil => rfl
    | cons kv rest ih =>
      by_cases hd : kv.1 = k1
      · have h1 : (k1 == k) = false := by simp; exact fun e => hk e.symm
        have h2 : (kv.1 == k) = false := by simp [hd]; exact fun e => hk e.symm
        simp only [List.map_cons, List.find?_cons, if_pos hd, h1, h2]
        exact ih
      · simp only [List.map_cons, List.find?_cons, if_neg hd]
        cases hdk : (kv.1 == k) with
        | true => rfl
        | false => exact ih
  | false =>
    simp only [hany, Bool.false_eq_true, if_false]
    rw [List.find?_append]
    have hone : List.find? (fun kv => kv.1 == k) [(k1, v)] = none := by
      have : (k1 == k) = false := by simp; exact fun e => hk e.symm
      simp [List.find?_cons, this]
    rw [hone]
    cases List.find? (fun kv => kv.1 == k) d <;> rfl

/-- Folding inserts whose keys avoid `k` leaves the lookup of `k`
unchanged. -/
theorem dictLookup_foldl_not_mem (rest : List (String × JVal)) (k : String)
    (hk : k ∉ rest.map Prod.fst) :
    ∀ d, dictLookup (rest.foldl (fun d kv => dictInsert d kv.1 kv.2) d) k =
      dictLookup d k := by
  induction rest with
  | nil => intro d; rfl
  | cons kv tail ih =>
    intro d
    simp only [List.map_cons, List.mem_cons, not_or] at hk
    simp only [List.foldl_cons]
    rw [ih hk.2, dictLookup_insert_other d kv.1 kv.2 k hk.1]

/-- A key present in `extra` ends up in the folded dict with the value
from `extra` (dict keys are unique in a Python dict). -/
theorem dictLookup_foldl_insert (extra : List (String × JVal)) (k : String) (v : JVal)
    (hnodup : (extra.map Prod.fst).Nodup)
    (hv : dictLookup extra k = some v) :
    ∀ d, dictLookup (extra.foldl (fun d kv => dictInsert d kv.1 kv.2) d) k = some v := by
  induction extra with
  | nil => simp [dictLookup] at hv
  | cons kv rest ih =>
    intro d
    simp only [List.map_cons, List.nodup_cons] at hnodup
    simp only [List.foldl_cons]
    by_cases hd : kv.1 = k
    · have hvv : kv.2 = v := by
        have : (kv.1 == k) = true := by simp [hd]
        simp only [dictLookup, List.find?_cons, this, Option.map_some] at hv
        exact Option.some.inj hv
      rw [dictLookup_foldl_not_mem rest k (hd ▸ hnodup.1)]
      rw [← hd, ← hvv]
      exact dictLookup_insert_same d kv.1 kv.2
    · have hdb : (kv.1 == k) = false := by simp [hd]
      simp only [dictLookup, List.find?_cons, hdb] at hv
      exact ih hnodup.2 hv (dictInsert d kv.1 kv.2)

/-- Python's `body or filters` with `body = filters` is always
`filters`. -/
theorem pyOrBody_self (l : List (String × JVal)) : pyOrBody (some l) l = l := by
  cases h : l.isEmpty <;> simp [pyOrBody, h]

/-- C10: in `POST /busca/avancada`, a key of `extra` that collides with
one of the named fields (`servico`, `regiao`, `faixaPrecoMax`,
`avaliacoesMinimas`) overrides that field in the merged filter set,
because `**req.extra` is spread last; the merged set is what the
endpoint passes both as the cache-key input and as the upstream POST
body. -/
theorem C10_extra_overrides (upstream : UpstreamReq → Except String JVal)
    (store : List StoredDoc) (now ttl : Int) (req : AdvancedSearchRequest)
    (k : String) (v : JVal)
    (_hk : k = "servico" ∨ k = "regiao" ∨ k = "faixaPrecoMax" ∨ k = "avaliacoesMinimas")
    (hnodup : (req.extra.map Prod.fst).Nodup)
    (hv : dictLookup req.extra k = some v) :
    dictLookup (advancedFilters req) k = some v ∧
    busca_avancada upstream store now ttl req =
      get_cached_or_refresh upstream store (advancedFilters req)
        "/catalogo/busca/avancada" "POST" (some (advancedFilters req)) now ttl ∧
    (noFreshHit store (cache_key_from_filters (advancedFilters req)) now ttl →
      (busca_avancada upstream store now ttl req).requests =
        [⟨"POST", "/catalogo/busca/avancada", none, some (advancedFilters req)⟩]) := by
  refine ⟨?_, rfl, ?_⟩
  · exact dictLookup_foldl_insert req.extra k v hnodup hv _
  · intro hmiss
    show (get_cached_or_refresh upstream store (advancedFilters req)
      "/catalogo/busca/avancada" "POST" (some (advancedFilters req)) now ttl).requests = _
    rw [resolve_of_noFreshHit upstream store (advancedFilters req)
      "/catalogo/busca/avancada" "POST" (some (advancedFilters req)) now ttl hmiss]
    have hM : (("POST" : String) == "GET") = false := by decide
    simp only [refreshFromUpstream, buildUpstreamRequest, hM, Bool.false_eq_true, if_false,
      pyOrBody_self]
    cases upstream ⟨"POST", "/catalogo/busca/avancada", none, some (advancedFilters req)⟩ <;> rfl

/-- C10 witness: `extra` overriding the named field `servico`. -/
theorem C10_extra_overrides_witness :
    dictLookup (advancedFilters ⟨some "named", none, none, none,
        [("servico", JVal.str "fromExtra")]⟩) "servico" = some (JVal.str "fromExtra") ∧
    busca_avancada (fun _ => Except.ok (JVal.obj [])) [] 0 600000
        ⟨some "named", none, none, none, [("servico", JVal.str "fromExtra")]⟩ =
      get_cached_or_refresh (fun _ => Except.ok (JVal.obj [])) []
        (advancedFilters ⟨some "named", none, none, none, [("servico", JVal.str "fromExtra")]⟩)
        "/catalogo/busca/avancada" "POST"
        (some (advancedFilters ⟨some "named", none, none, none,
          [("servico", JVal.str "fromExtra")]⟩)) 0 600000 ∧
    (noFreshHit [] (cache_key_from_filters (advancedFilters ⟨some "named", none, none, none,
        [("servico", JVal.str "fromExtra")]⟩)) 0 600000 →
      (busca_avancada (fun _ => Except.ok (JVal.obj [])) [] 0 600000
        ⟨some "named", none, none, none, [("servico", JVal.str "fromExtra")]⟩).requests =
        [⟨"POST", "/catalogo/busca/avancada", none,
          some (advancedFilters ⟨some "named", none, none, none,
            [("servico", JVal.str "fromExtra")]⟩)⟩]) :=
  C10_extra_overrides (fun _ => Except.ok (JVal.obj [])) [] 0 600000
    ⟨some "named", none, none, none, [("servico", JVal.str "fromExtra")]⟩
    "servico" (JVal.str "fromExtra") (Or.inl rfl) (by simp) rfl

/-- Semantic equivalence of filter values, as the spec words it:
equal up to case/whitespace-insensitive comparison of string values and
omission of null entries, at every nesting level, in mappings and
sequences. Defined independently of the normalizer: strings are related
when they agree after trimming and lowercasing, a null mapping entry or
sequence element may be present on either side or absent, everything
else must match structurally. List equivalence is encoded through the
`arr`/`obj` constructors so a single inductive suffices. -/
inductive JEquiv : JVal → JVal → Prop where
  | null : JEquiv .null .null
  | str (s1 s2 : String) : pyLower (pyStrip s1) = pyLower (pyStrip s2) →
      JEquiv (.str s1) (.str s2)
  | int (n : Int) : JEquiv (.int n) (.int n)
  | bool (b : Bool) : JEquiv (.bool b) (.bool b)
  | arrNil : JEquiv (.arr []) (.arr [])
  | arrCons {x y : JVal} {xs ys : List JVal} : JEquiv x y →
      JEquiv (.arr xs) (.arr ys) → JEquiv (.arr (x :: xs)) (.arr (y :: ys))
  | arrNullL {xs ys : List JVal} : JEquiv (.arr xs) (.arr ys) →
      JEquiv (.arr (.null :: xs)) (.arr ys)
  | arrNullR {xs ys : List JVal} : JEquiv (.arr xs) (.arr ys) →
      JEquiv (.arr xs) (.arr (.null :: ys))
  | objNil : JEquiv (.obj []) (.obj [])
  | objCons {v w : JVal} {kvs kvs2 : List (String × JVal)} (k : String) :
      JEquiv v w → JEquiv (.obj kvs) (.obj kvs2) →
      JEquiv (.obj ((k, v) :: kvs)) (.obj ((k, w) :: kvs2))
  | objNullL {kvs kvs2 : List (String × JVal)} (k : String) :
      JEquiv (.obj kvs) (.obj kvs2) → JEquiv (.obj ((k, .null) :: kvs)) (.obj kvs2)
  | objNullR {kvs kvs2 : List (String × JVal)} (k : String) :
      JEquiv (.obj kvs) (.obj kvs2) → JEquiv (.obj kvs) (.obj ((k, .null) :: kvs2))

/-- Equivalent values agree on being null. -/
theorem JEquiv.isNull_eq {v w : JVal} (h : JEquiv v w) : v.isNull = w.isNull := by
  cases h <;> rfl

/-- The normalizer maps semantically equivalent values to the same
canonical value. -/
theorem JEquiv.normJ_eq {v w : JVal} (h : JEquiv v w) : normJ v = normJ w := by
  induction h with
  | null => rfl
  | str s1 s2 hs => simp only [normJ, hs]
  | int n => rfl
  | bool b => rfl
  | arrNil => rfl
  | arrCons h1 h2 ih1 ih2 =>
    have hxs := JVal.arr.inj ih2
    cases hxn : JVal.isNull _ with
    | true =>
      have hyn := (h1.isNull_eq) ▸ hxn
      simp only [normJ, normArr, hxn, hyn, if_true]
      exact congrArg JVal.arr hxs
    | false =>
      have hyn := (h1.isNull_eq) ▸ hxn
      simp only [normJ, normArr, hxn, hyn, Bool.false_eq_true, if_false]
      simp only [normJ] at ih1
      exact congrArg JVal.arr (by rw [hxs]; exact congrArg (fun z => z :: _) ih1)
  | arrNullL h ih =>
    have hxs := JVal.arr.inj ih
    simp only [normJ, normArr, JVal.isNull, if_true]
    exact congrArg JVal.arr hxs
  | arrNullR h ih =>
    have hxs := JVal.arr.inj ih
    simp only [normJ, normArr, JVal.isNull, if_true]
    exact congrArg JVal.arr hxs
  | objNil => rfl
  | objCons k h1 h2 ih1 ih2 =>
    have hxs := JVal.obj.inj ih2
    cases hxn : JVal.isNull _ with
    | true =>
      have hyn := (h1.isNull_eq) ▸ hxn
      simp only [normJ, normObj, hxn, hyn, if_true]
      exact congrArg JVal.obj hxs
    | false =>
      have hyn := (h1.isNull_eq) ▸ hxn
      simp only [normJ, normObj, hxn, hyn, Bool.false_eq_true, if_false]
      exact congrArg JVal.obj (by rw [hxs, ih1])
  | objNullL k h ih =>
    have hxs := JVal.obj.inj ih
    simp only [normJ, normObj, JVal.isNull, if_true]
    exact congrArg JVal.obj hxs
  | objNullR k h ih =>
    have hxs := JVal.obj.inj ih
    simp only [normJ, normObj, JVal.isNull, if_true]
    exact congrArg JVal.obj hxs

/-- C1: two FilterSets that are semantically equivalent — equal up to
case/whitespace-insensitive string comparison and omission of null
entries at every nesting level — normalize to an identical canonical
form, and `cache_key_from_filters` therefore derives the same hex
digest for both. -/
theorem C1_equiv_same_key (f1 f2 : List (String × JVal))
    (h : JEquiv (.obj f1) (.obj f2)) :
    normalize_filters f1 = normalize_filters f2 ∧
    cache_key_from_filters f1 = cache_key_from_filters f2 := by
  have hobj : normObj f1 = normObj f2 := JVal.obj.inj h.normJ_eq
  have hnf : normalize_filters f1 = normalize_filters f2 := by
    rw [normalize_filters_eq_normObj, normalize_filters_eq_normObj, hobj]
  exact ⟨hnf, by unfold cache_key_from_filters; rw [hnf]⟩

/-- C1 witness: `{"termo": " Encanador", "cidade": null}` is equivalent
to `{"termo": "ENCANADOR"}`; both normalize to `{"termo": "encanador"}`
and share one cache key. -/
theorem C1_equiv_same_key_witness :
    normalize_filters [("termo", JVal.str " Encanador"), ("cidade", JVal.null)] =
      normalize_filters [("termo", JVal.str "ENCANADOR")] ∧
    cache_key_from_filters [("termo", JVal.str " Encanador"), ("cidade", JVal.null)] =
      cache_key_from_filters [("termo", JVal.str "ENCANADOR")] :=
  C1_equiv_same_key [("termo", JVal.str " Encanador"), ("cidade", JVal.null)]
    [("termo", JVal.str "ENCANADOR")]
    (JEquiv.objCons "termo" (JEquiv.str " Encanador" "ENCANADOR" (by decide))
      (JEquiv.objNullL "cidade" JEquiv.objNil))

/-- Valid-codepoint fact for the lowercase ASCII range, used to compute
`(Char.ofNat n).toNat` for `97 ≤ n ≤ 122`. -/
theorem toNat_ofNat_lower : ∀ n, n < 123 → 97 ≤ n → (Char.ofNat n).toNat = n := by
  decide

/-- Lowercasing an ASCII character twice is the same as once. -/
theorem pyLowerChar_idem (c : Char) : pyLowerChar (pyLowerChar c) = pyLowerChar c := by
  unfold pyLowerChar
  by_cases h : 65 ≤ c.toNat ∧ c.toNat ≤ 90
  · rw [if_pos h]
    have ht : (Char.ofNat (c.toNat + 32)).toNat = c.toNat + 32 :=
      toNat_ofNat_lower (c.toNat + 32) (by omega) (by omega)
    rw [if_neg (by rw [ht]; omega)]
  · rw [if_neg h, if_neg h]

/-- Lowercasing never turns a character into whitespace or back. -/
theorem isPySpace_pyLowerChar (c : Char) : isPySpace (pyLowerChar c) = isPySpace c := by
  unfold pyLowerChar
  by_cases h : 65 ≤ c.toNat ∧ c.toNat ≤ 90
  · rw [if_pos h]
    have ht : (Char.ofNat (c.toNat + 32)).toNat = c.toNat + 32 :=
      toNat_ofNat_lower (c.toNat + 32) (by omega) (by omega)
    have h1 : isPySpace (Char.ofNat (c.toNat + 32)) = false := by
      simp only [isPySpace, ht, Bool.or_eq_false_iff, beq_eq_false_iff_ne, ne_eq]
      omega
    have h2 : isPySpace c = false := by
      simp only [isPySpace, Bool.or_eq_false_iff, beq_eq_false_iff_ne, ne_eq]
      omega
    rw [h1, h2]
  · rw [if_neg h]

/-- Dropping a prefix twice drops it once. -/
theorem dropWhile_idem (p : Char → Bool) (l : List Char) :
    List.dropWhile p (List.dropWhile p l) = List.dropWhile p l := by
  induction l with
  | nil => rfl
  | cons a as ih =>
    by_cases ha : p a
    · simp only [List.dropWhile_cons, ha, if_true]
      exact ih
    · simp only [List.dropWhile_cons, ha, Bool.false_eq_true, if_false]

/-- A prefix of a list that `dropWhile` leaves alone is itself left
alone. -/
theorem dropWhile_prefix_fixed (p : Char → Bool) (y m : List Char)
    (hpre : y <+: m) (hm : List.dropWhile p m = m) :
    List.dropWhile p y = y := by
  cases y with
  | nil => rfl
  | cons a t =>
    obtain ⟨rest, hrest⟩ := hpre
    have hpa : p a = false := by
      cases h2 : p a with
      | false => rfl
      | true =>
        exfalso
        rw [← hrest, List.cons_append] at hm
        rw [List.dropWhile_cons_of_pos h2] at hm
        have hle : (List.dropWhile p (t ++ rest)).length ≤ (t ++ rest).length :=
          List.Sublist.length_le (List.dropWhile_sublist p)
        have hlen := congrArg List.length hm
        rw [List.length_cons] at hlen
        omega
    rw [List.dropWhile_cons, if_neg (by simp [hpa])]

/-- `stripChars` is idempotent. -/
theorem stripChars_idem (l : List Char) : stripChars (stripChars l) = stripChars l := by
  unfold stripChars
  set m := List.dropWhile isPySpace l with hm
  have hmfix : List.dropWhile isPySpace m = m := dropWhile_idem isPySpace l
  set y := (List.dropWhile isPySpace m.reverse).reverse with hy
  have hypre : y <+: m := by
    rw [hy]
    have : List.dropWhile isPySpace m.reverse <:+ m.reverse :=
      List.dropWhile_suffix isPySpace
    have h2 := List.reverse_prefix.mpr this
    simpa using h2
  have hyfix : List.dropWhile isPySpace y = y :=
    dropWhile_prefix_fixed isPySpace y m hypre hmfix
  rw [hyfix]
  have : List.dropWhile isPySpace y.reverse = y.reverse := by
    rw [hy, List.reverse_reverse]
    exact dropWhile_idem isPySpace m.reverse
  rw [this]
  exact List.reverse_reverse y

/-- `str.strip()` is idempotent. -/
theorem pyStrip_idem (s : String) : pyStrip (pyStrip s) = pyStrip s := by
  unfold pyStrip
  exact congrArg String.mk (stripChars_idem s.data)

/-- `str.lower()` is idempotent. -/
theorem pyLower_idem (s : String) : pyLower (pyLower s) = pyLower s := by
  unfold pyLower
  refine congrArg String.mk ?_
  rw [List.map_map]
  exact List.map_congr_left (fun c _ => pyLowerChar_idem c)

/-- `stripChars` commutes with character-wise lowercasing, because
lowercasing preserves whitespace-ness. -/
theorem stripChars_map_lower (l : List Char) :
    stripChars (l.map pyLowerChar) = (stripChars l).map pyLowerChar := by
  unfold stripChars
  have hpf : (isPySpace ∘ pyLowerChar) = isPySpace := funext isPySpace_pyLowerChar
  rw [List.dropWhile_map, hpf, ← List.map_reverse, List.dropWhile_map, hpf,
    List.map_reverse]

/-- Stripping after lowercasing is lowercasing after stripping. -/
theorem pyStrip_pyLower (s : String) : pyStrip (pyLower s) = pyLower (pyStrip s) := by
  show String.mk (stripChars (List.map pyLowerChar s.data)) =
    String.mk (List.map pyLowerChar (stripChars s.data))
  exact congrArg String.mk (stripChars_map_lower s.data)

/-- The composite `lower (strip s)` used by the normalizer is a fixed
point of itself. -/
theorem pyLower_pyStrip_fixed (s : String) :
    pyLower (pyStrip (pyLower (pyStrip s))) = pyLower (pyStrip s) := by
  rw [pyStrip_pyLower, pyStrip_idem, pyLower_idem]

/-- Normalization does not change nullness. -/
theorem normJ_isNull (v : JVal) : (normJ v).isNull = v.isNull := by
  cases v <;> rfl

mutual
/-- The inner norm is idempotent on values. -/
theorem normJ_idem : (v : JVal) → normJ (normJ v) = normJ v
  | .null => rfl
  | .int n => rfl
  | .bool b => rfl
  | .str s => by
    simp only [normJ]
    exact congrArg JVal.str (pyLower_pyStrip_fixed s)
  | .arr xs => by
    simp only [normJ]
    exact congrArg JVal.arr (normArr_idem xs)
  | .obj kvs => by
    simp only [normJ]
    exact congrArg JVal.obj (normObj_idem kvs)

theorem normArr_idem : (xs : List JVal) → normArr (normArr xs) = normArr xs
  | [] => rfl
  | x :: xs => by
    by_cases hx : x.isNull = true
    · simp only [normArr, hx, if_true]
      exact normArr_idem xs
    · have hx2 : (normJ x).isNull = false := by
        rw [normJ_isNull]
        exact Bool.not_eq_true _ ▸ hx
      simp only [normArr, hx, Bool.false_eq_true, if_false, hx2]
      rw [normJ_idem x, normArr_idem xs]

theorem normObj_idem : (kvs : List (String × JVal)) → normObj (normObj kvs) = normObj kvs
  | [] => rfl
  | (k, v) :: kvs => by
    by_cases hv : v.isNull = true
    · simp only [normObj, hv, if_true]
      exact normObj_idem kvs
    · have hv2 : (normJ v).isNull = false := by
        rw [normJ_isNull]
        exact Bool.not_eq_true _ ▸ hv
      simp only [normObj, hv, Bool.false_eq_true, if_false, hv2]
      rw [normJ_idem v, normObj_idem kvs]
end

/-- C9: `normalize_filters` is idempotent over the permitted value types
(string, number, boolean, nested mapping, sequence, null): normalizing
an already-normalized FilterSet changes nothing. -/
theorem C9_normalize_idempotent (f : List (String × JVal)) :
    normalize_filters (normalize_filters f) = normalize_filters f := by
  rw [normalize_filters_eq_normObj, normalize_filters_eq_normObj]
  exact normObj_idem f

/-- A non-null entry survives `normObj` with its normalized value. -/
theorem mem_normObj : ∀ (kvs : List (String × JVal)) (k : String) (v : JVal),
    (k, v) ∈ kvs → v.isNull = false → (k, normJ v) ∈ normObj kvs
  | [], _, _, hmem, _ => absurd hmem (List.not_mem_nil _)
  | (k1, v1) :: rest, k, v, hmem, hv => by
    rcases List.mem_cons.mp hmem with heq | htail
    · cases heq
      simp only [normObj, hv, Bool.false_eq_true, if_false]
      exact List.mem_cons_self _ _
    · by_cases h1 : v1.isNull = true
      · simp only [normObj, h1, if_true]
        exact mem_normObj rest k v htail hv
      · simp only [normObj, h1, Bool.false_eq_true, if_false]
        exact List.mem_cons_of_mem _ (mem_normObj rest k v htail hv)

set_option maxRecDepth 10000 in
/-- C8: a non-null filter value is retained by normalization (with its
normalized value — in particular a value normalizing to an empty mapping
or sequence stays as that empty mapping/sequence, distinct from being
absent): `normalize_filters {"a": {"x": null}}` is `{"a": {}}`, and its
derived key differs from the derived key of `{}`. -/
theorem C8_empty_retained :
    (∀ (f : List (String × JVal)) (k : String) (v : JVal),
      (k, v) ∈ f → v.isNull = false → (k, normJ v) ∈ normalize_filters f) ∧
    normalize_filters [("a", JVal.obj [("x", JVal.null)])] = [("a", JVal.obj [])] ∧
    cache_key_from_filters [("a", JVal.obj [("x", JVal.null)])] ≠
      cache_key_from_filters [] := by
  refine ⟨?_, rfl, by decide⟩
  intro f k v hmem hv
  rw [normalize_filters_eq_normObj]
  exact mem_normObj f k v hmem hv

/-- C8 witness: the entry `("a", {"x": null})` is retained as
`("a", {})`. -/
theorem C8_empty_retained_witness :
    ("a", normJ (JVal.obj [("x", JVal.null)])) ∈
      normalize_filters [("a", JVal.obj [("x", JVal.null)])] :=
  C8_empty_retained.1 [("a", JVal.obj [("x", JVal.null)])] "a"
    (JVal.obj [("x", JVal.null)]) (List.mem_cons_self _ _) rfl

/-- Equality of filter values up to reordering of mapping entries, at
any nesting level: scalars must be identical, sequences keep their
element order (element-wise related), and a mapping's entry list may be
permuted after relating entries pointwise (same key, related value).
List structure is encoded through the `arr`/`obj` constructors. -/
inductive PermEquiv : JVal → JVal → Prop where
  | null : PermEquiv .null .null
  | str (s : String) : PermEquiv (.str s) (.str s)
  | int (n : Int) : PermEquiv (.int n) (.int n)
  | bool (b : Bool) : PermEquiv (.bool b) (.bool b)
  | arrNil : PermEquiv (.arr []) (.arr [])
  | arrCons {x y : JVal} {xs ys : List JVal} : PermEquiv x y →
      PermEquiv (.arr xs) (.arr ys) → PermEquiv (.arr (x :: xs)) (.arr (y :: ys))
  | objNil : PermEquiv (.obj []) (.obj [])
  | objCons {v w : JVal} {kvs kvs2 : List (String × JVal)} (k : String) :
      PermEquiv v w → PermEquiv (.obj kvs) (.obj kvs2) →
      PermEquiv (.obj ((k, v) :: kvs)) (.obj ((k, w) :: kvs2))
  | objPerm {kvs kvs2 kvs3 : List (String × JVal)} :
      PermEquiv (.obj kvs) (.obj kvs2) → kvs2.Perm kvs3 →
      PermEquiv (.obj kvs) (.obj kvs3)

mutual
/-- Well-formedness of a value as a Python/JSON value: every mapping at
every nesting level has pairwise-distinct keys (Python dicts cannot hold
duplicate keys). -/
def wfJ : JVal → Bool
  | .arr xs => wfL xs
  | .obj kvs => decide ((kvs.map Prod.fst).Nodup) && wfO kvs
  | _ => true

def wfL : List JVal → Bool
  | [] => true
  | x :: xs => wfJ x && wfL xs

def wfO : List (String × JVal) → Bool
  | [] => true
  | (_, v) :: kvs => wfJ v && wfO kvs
end

/-- `PermEquiv` relates values of the same top shape, in particular it
preserves nullness. -/
theorem PermEquiv.isNull_congr {v w : JVal} (h : PermEquiv v w) :
    v.isNull = w.isNull := by
  cases h <;> rfl

/-- `normObj` as filter-then-map, for permutation reasoning. -/
theorem normObj_eq_filterMap (kvs : List (String × JVal)) :
    normObj kvs = (kvs.filter (fun kv => !kv.2.isNull)).map
      (fun kv => (kv.1, normJ kv.2)) := by
  induction kvs with
  | nil => rfl
  | cons kv rest ih =>
    obtain ⟨k, v⟩ := kv
    by_cases h : v.isNull
    · simp [normObj, h, List.filter, ih]
    · simp [normObj, h, List.filter, ih]

/-- The normalizer preserves `PermEquiv`. -/
theorem PermEquiv.normJ_congr {v w : JVal} (h : PermEquiv v w) :
    PermEquiv (normJ v) (normJ w) := by
  induction h with
  | null => exact PermEquiv.null
  | str s => exact PermEquiv.str _
  | int n => exact PermEquiv.int n
  | bool b => exact PermEquiv.bool b
  | arrNil => exact PermEquiv.arrNil
  | arrCons h1 h2 ih1 ih2 =>
    simp only [normJ] at ih1 ih2 ⊢
    cases hxn : JVal.isNull _ with
    | true =>
      have hyn := h1.isNull_congr ▸ hxn
      simp only [normArr, hxn, hyn, if_true]
      exact ih2
    | false =>
      have hyn := h1.isNull_congr ▸ hxn
      simp only [normArr, hxn, hyn, Bool.false_eq_true, if_false]
      exact PermEquiv.arrCons ih1 ih2
  | objNil => exact PermEquiv.objNil
  | objCons k h1 h2 ih1 ih2 =>
    simp only [normJ] at ih1 ih2 ⊢
    cases hxn : JVal.isNull _ with
    | true =>
      have hyn := h1.isNull_congr ▸ hxn
      simp only [normObj, hxn, hyn, if_true]
      exact ih2
    | false =>
      have hyn := h1.isNull_congr ▸ hxn
      simp only [normObj, hxn, hyn, Bool.false_eq_true, if_false]
      exact PermEquiv.objCons k ih1 ih2
  | objPerm h1 hperm ih =>
    simp only [normJ] at ih ⊢
    refine PermEquiv.objPerm ih ?_
    rw [normObj_eq_filterMap, normObj_eq_filterMap]
    exact (hperm.filter _).map _

/-- Keys of a normalized mapping are a sublist of the original keys. -/
theorem normObj_keys_sublist (kvs : List (String × JVal)) :
    List.Sublist ((normObj kvs).map Prod.fst) (kvs.map Prod.fst) := by
  induction kvs with
  | nil => exact List.Sublist.refl _
  | cons kv rest ih =>
    obtain ⟨k, v⟩ := kv
    by_cases h : v.isNull
    · simp only [normObj, h, if_true, List.map_cons]
      exact ih.cons k
    · simp only [normObj, h, Bool.false_eq_true, if_false, List.map_cons]
      exact ih.cons₂ k

mutual
/-- Normalization preserves well-formedness. -/
theorem wfJ_normJ : (v : JVal) → wfJ v = true → wfJ (normJ v) = true
  | .null, _ => rfl
  | .int _, _ => rfl
  | .bool _, _ => rfl
  | .str _, _ => rfl
  | .arr xs, h => by
    simp only [normJ, wfJ] at h ⊢
    exact wfL_normArr xs h
  | .obj kvs, h => by
    simp only [normJ, wfJ, Bool.and_eq_true, decide_eq_true_eq] at h ⊢
    exact ⟨(normObj_keys_sublist kvs).nodup h.1, wfO_normObj kvs h.2⟩

theorem wfL_normArr : (xs : List JVal) → wfL xs = true → wfL (normArr xs) = true
  | [], _ => rfl
  | x :: xs, h => by
    simp only [wfL, Bool.and_eq_true] at h
    by_cases hx : x.isNull = true
    · simp only [normArr, hx, if_true]
      exact wfL_normArr xs h.2
    · simp only [normArr, hx, Bool.false_eq_true, if_false, wfL, Bool.and_eq_true]
      exact ⟨wfJ_normJ x h.1, wfL_normArr xs h.2⟩

theorem wfO_normObj : (kvs : List (String × JVal)) → wfO kvs = true → wfO (normObj kvs) = true
  | [], _ => rfl
  | (k, v) :: kvs, h => by
    simp only [wfO, Bool.and_eq_true] at h
    by_cases hv : v.isNull = true
    · simp only [normObj, hv, if_true]
      exact wfO_normObj kvs h.2
    · simp only [normObj, hv, Bool.false_eq_true, if_false, wfO, Bool.and_eq_true]
      exact ⟨wfJ_normJ v h.1, wfO_normObj kvs h.2⟩
end

instance : IsTotal (String × String) entryLe :=
  ⟨fun a b => le_total a.1 b.1⟩

instance : IsTrans (String × String) entryLe :=
  ⟨fun _ _ _ h1 h2 => le_trans h1 h2⟩

/-- Sorting serialized entries by key is permutation-invariant when the
keys are pairwise distinct: both sorts are sorted by key, distinct keys
make that ordering strict, and a strict order admits only one sorted
arrangement of a given multiset. -/
theorem sortEntries_eq_of_perm (l1 l2 : List (String × String))
    (hperm : l1.Perm l2) (hnodup : (l1.map Prod.fst).Nodup) :
    sortEntries l1 = sortEntries l2 := by
  have hp1 : (sortEntries l1).Perm l1 := List.perm_insertionSort entryLe l1
  have hp2 : (sortEntries l2).Perm l2 := List.perm_insertionSort entryLe l2
  have hp : (sortEntries l1).Perm (sortEntries l2) :=
    (hp1.trans hperm).trans hp2.symm
  have hs1 : List.Sorted entryLe (sortEntries l1) := List.sorted_insertionSort entryLe l1
  have hs2 : List.Sorted entryLe (sortEntries l2) := List.sorted_insertionSort entryLe l2
  have hn1 : ((sortEntries l1).map Prod.fst).Nodup :=
    ((hp1.map Prod.fst).nodup_iff).mpr hnodup
  have hn2 : ((sortEntries l2).map Prod.fst).Nodup :=
    ((hp.symm.map Prod.fst).nodup_iff).mpr hn1
  have strict : ∀ (s : List (String × String)), List.Sorted entryLe s →
      (s.map Prod.fst).Nodup →
      List.Sorted (fun a b : String × String => a.1 < b.1) s := by
    intro s hs hn
    have hpne : List.Pairwise (fun a b : String × String => a.1 ≠ b.1) s :=
      (List.pairwise_map).mp hn
    exact (hs.and hpne).imp (fun h => lt_of_le_of_ne h.1 h.2)
  haveI : IsAntisymm (String × String) (fun a b : String × String => a.1 < b.1) :=
    ⟨fun a b h1 h2 => absurd (lt_trans h1 h2) (lt_irrefl _)⟩
  exact List.eq_of_perm_of_sorted hp (strict _ hs1 hn1) (strict _ hs2 hn2)

/-- `dumpEntries` serializes each value, keeping keys. -/
theorem dumpEntries_eq_map (kvs : List (String × JVal)) :
    dumpEntries kvs = kvs.map (fun kv => (kv.1, dumps kv.2)) := by
  induction kvs with
  | nil => rfl
  | cons kv rest ih =>
    obtain ⟨k, v⟩ := kv
    simp [dumpEntries, ih]

/-- Serialized entries keep the original keys. -/
theorem dumpEntries_map_fst (kvs : List (String × JVal)) :
    (dumpEntries kvs).map Prod.fst = kvs.map Prod.fst := by
  rw [dumpEntries_eq_map, List.map_map]
  rfl

/-- Component-level conclusion of the serialization congruence: related
arrays have equal element serializations, related objects have
permutation-related entry serializations. -/
def dumpsAux : JVal → JVal → Prop
  | .arr xs, .arr ys => dumpList xs = dumpList ys
  | .obj kvs, .obj kvs2 => (dumpEntries kvs).Perm (dumpEntries kvs2)
  | _, _ => True

/-- Values equal up to mapping-entry reordering (with duplicate-free
keys on the left) serialize to the same canonical text, because `dumps`
sorts object entries by key at every nesting level. -/
theorem PermEquiv.dumps_eq_aux {v w : JVal} (h : PermEquiv v w) :
    wfJ v = true → dumps v = dumps w ∧ dumpsAux v w := by
  induction h with
  | null => exact fun _ => ⟨rfl, trivial⟩
  | str s => exact fun _ => ⟨rfl, trivial⟩
  | int n => exact fun _ => ⟨rfl, trivial⟩
  | bool b => exact fun _ => ⟨rfl, trivial⟩
  | arrNil => exact fun _ => ⟨rfl, rfl⟩
  | arrCons h1 h2 ih1 ih2 =>
    rename_i x y xs ys
    intro hwf
    simp only [wfJ, wfL, Bool.and_eq_true] at hwf
    have e1 : dumps x = dumps y := (ih1 hwf.1).1
    have e2 : dumpList xs = dumpList ys := (ih2 hwf.2).2
    have el : dumpList (x :: xs) = dumpList (y :: ys) := by
      simp only [dumpList, e1, e2]
    exact ⟨by simp only [dumps, el], el⟩
  | objNil => exact fun _ => ⟨rfl, List.Perm.refl _⟩
  | objCons k h1 h2 ih1 ih2 =>
    rename_i v1 w1 kvs1 kvs2
    intro hwf
    simp only [wfJ, wfO, Bool.and_eq_true, decide_eq_true_eq, List.map_cons,
      List.nodup_cons] at hwf
    obtain ⟨⟨hk, hnd⟩, hv, ho⟩ := hwf
    have e1 : dumps v1 = dumps w1 := (ih1 hv).1
    have e2 : (dumpEntries kvs1).Perm (dumpEntries kvs2) :=
      (ih2 (by simp only [wfJ, Bool.and_eq_true, decide_eq_true_eq]; exact ⟨hnd, ho⟩)).2
    have ep : (dumpEntries ((k, v1) :: kvs1)).Perm (dumpEntries ((k, w1) :: kvs2)) := by
      simp only [dumpEntries, e1]
      exact e2.cons _
    refine ⟨?_, ep⟩
    simp only [dumps]
    rw [sortEntries_eq_of_perm _ _ ep
      (by rw [dumpEntries_map_fst]; simp only [List.map_cons, List.nodup_cons]; exact ⟨hk, hnd⟩)]
  | objPerm h1 hperm ih =>
    rename_i kvs1 kvs2 kvs3
    intro hwf
    have hwf2 := hwf
    simp only [wfJ, Bool.and_eq_true, decide_eq_true_eq] at hwf2
    have e2 : (dumpEntries kvs1).Perm (dumpEntries kvs2) := (ih hwf).2
    have ep : (dumpEntries kvs1).Perm (dumpEntries kvs3) := by
      refine e2.trans ?_
      rw [dumpEntries_eq_map, dumpEntries_eq_map]
      exact hperm.map _
    refine ⟨?_, ep⟩
    simp only [dumps]
    rw [sortEntries_eq_of_perm _ _ ep
      (by rw [dumpEntries_map_fst]; exact hwf2.1)]

/-- C5 counterexample: the claim asserts that reordering the elements of
a list value to a different sequence always changes the derived cache
key. But normalization lowercases strings, so `["A", "a"]` reordered to
`["a", "A"]` — a genuine reordering to a different sequence — normalizes
to the same `["a", "a"]` and yields the identical cache key. -/
theorem C5_list_reorder_counterexample :
    ([JVal.str "A", JVal.str "a"] : List JVal).Perm [JVal.str "a", JVal.str "A"] ∧
    ([JVal.str "A", JVal.str "a"] : List JVal) ≠ [JVal.str "a", JVal.str "A"] ∧
    cache_key_from_filters [("x", JVal.arr [JVal.str "A", JVal.str "a"])] =
      cache_key_from_filters [("x", JVal.arr [JVal.str "a", JVal.str "A"])] := by
  refine ⟨List.Perm.swap _ _ _, by decide, ?_⟩
  have h : normalize_filters [("x", JVal.arr [JVal.str "A", JVal.str "a"])] =
      normalize_filters [("x", JVal.arr [JVal.str "a", JVal.str "A"])] := by decide
  unfold cache_key_from_filters
  rw [h]

set_option maxRecDepth 10000 in
/-- C5 (amended): reordering the entries of any mapping, at any nesting
level, in a FilterSet whose mappings have duplicate-free keys never
changes the derived cache key; reordering the elements of a list value
changes the key only when the reordered sequence still differs after
normalization — for example `[1, 2]` versus `[2, 1]` produces two
different keys, while `["A", "a"]` versus `["a", "A"]` does not (see the
counterexample). -/
theorem C5_key_order_independence (f1 f2 : List (String × JVal))
    (h : PermEquiv (.obj f1) (.obj f2)) (hwf : wfJ (.obj f1) = true) :
    cache_key_from_filters f1 = cache_key_from_filters f2 ∧
    cache_key_from_filters [("x", JVal.arr [JVal.int 1, JVal.int 2])] ≠
      cache_key_from_filters [("x", JVal.arr [JVal.int 2, JVal.int 1])] := by
  refine ⟨?_, by decide⟩
  have hn : PermEquiv (normJ (.obj f1)) (normJ (.obj f2)) := h.normJ_congr
  have hwfn : wfJ (normJ (.obj f1)) = true := wfJ_normJ _ hwf
  have hd : dumps (normJ (.obj f1)) = dumps (normJ (.obj f2)) :=
    (hn.dumps_eq_aux hwfn).1
  have e1 : JVal.obj (normalize_filters f1) = normJ (.obj f1) := by
    rw [normalize_filters_eq_normObj]; rfl
  have e2 : JVal.obj (normalize_filters f2) = normJ (.obj f2) := by
    rw [normalize_filters_eq_normObj]; rfl
  unfold cache_key_from_filters
  rw [e1, e2, hd]

/-- C5 witness: permuting the top-level keys and the keys of a nested
mapping leaves the cache key unchanged. -/
theorem C5_key_order_independence_witness :
    wfJ (.obj [("b", JVal.int 2), ("a", JVal.obj [("y", JVal.int 1), ("x", JVal.int 0)])]) =
      true ∧
    cache_key_from_filters
        [("b", JVal.int 2), ("a", JVal.obj [("y", JVal.int 1), ("x", JVal.int 0)])] =
      cache_key_from_filters
        [("a", JVal.obj [("x", JVal.int 0), ("y", JVal.int 1)]), ("b", JVal.int 2)] :=
  ⟨by decide,
    (C5_key_order_independence
      [("b", JVal.int 2), ("a", JVal.obj [("y", JVal.int 1), ("x", JVal.int 0)])]
      [("a", JVal.obj [("x", JVal.int 0), ("y", JVal.int 1)]), ("b", JVal.int 2)]
      (PermEquiv.objPerm
        (PermEquiv.objCons "b" (PermEquiv.int 2)
          (PermEquiv.objCons "a"
            (PermEquiv.objPerm
              (PermEquiv.objCons "y" (PermEquiv.int 1)
                (PermEquiv.objCons "x" (PermEquiv.int 0) PermEquiv.objNil))
              (List.Perm.swap ("x", JVal.int 0) ("y", JVal.int 1) []))
            PermEquiv.objNil))
        (List.Perm.swap ("a", JVal.obj [("x", JVal.int 0), ("y", JVal.int 1)])
          ("b", JVal.int 2) []))
      (by decide)).1⟩
